import Mathlib

/-!
Shallow embedding of `src/main.py` (RegionFree YouTube Downloader):
the filename sanitizer, the stall-watchdog streaming download, the
version-selection step of the dependency materializer, the Tor process
supervisor (`start_tor_process` / `terminate_tor_process` over the module
globals `tor_process`, `torrc_path`, `tor_started_by_us`), and the
per-country rotation loop of `download_video`.
-/

namespace RegionFree

/-! ## Filename sanitizer

Python source:
```
def sanitize_filename(name: str) -> str:
    name = re.sub(r'[\\/:*?"<>|\n\r\t]', "", name)
    return name.replace(" ", "_")
```
The regex character class deletes every occurrence of the listed
characters; afterwards each space is replaced by an underscore.
-/

/-- Membership in the character class of the `re.sub` pattern. -/
def forbiddenChar (c : Char) : Bool :=
  c = '\\' || c = '/' || c = ':' || c = '*' || c = '?' || c = '"' ||
  c = '<' || c = '>' || c = '|' || c = '\n' || c = '\r' || c = '\t'

/-- The `.replace(" ", "_")` step, per character. -/
def spaceToUnderscore (c : Char) : Char := if c = ' ' then '_' else c

/-- Embedding of `sanitize_filename`: drop the forbidden characters, then
turn spaces into underscores. -/
def sanitize_filename (s : String) : String :=
  String.mk ((s.toList.filter (fun c => !forbiddenChar c)).map spaceToUnderscore)

/-! ## Stall-watchdog transfer

Python source (`download_with_watchdog`), reduced to its dataflow: the
response stream is a sequence of iterations, each yielding a (possibly
empty) chunk at some wall-clock time.  The loop body is
```
for chunk in r.iter_content(chunk_size=chunk_size):
    if not chunk:
        if time.time() - last_data_time > timeout:
            raise RuntimeError(f"{label} stalled for {timeout} seconds")
        continue
    f.write(chunk)
    downloaded += len(chunk)
    last_data_time = time.time()
```
`last_data_time` is initialised to `time.time()` before the request.  We
model each iteration as a pair `(t, chunk)` of the observation time and
the bytes received, bytes as naturals, the file as the list of bytes
written so far.
-/

/-- Result of the streaming download: normal completion carrying the file
contents and the `downloaded` counter, or the stall `RuntimeError`.  The
source's error message interpolates `label` and `timeout`, so those are
the data the error carries. -/
inductive DlResult where
  | ok (file : List Nat) (downloaded : Nat)
  | stalled (label : String) (seconds : Nat)
  deriving DecidableEq

/-- Embedding of the `for chunk in r.iter_content(...)` loop of
`download_with_watchdog`.  State: `lastData` (the `last_data_time`
variable), `file` (bytes written), `downloaded`. -/
def dl_loop (timeout : Nat) (label : String) :
    List (Nat × List Nat) → Nat → List Nat → Nat → DlResult
  | [], _, file, downloaded => .ok file downloaded
  | (t, chunk) :: rest, lastData, file, downloaded =>
    if chunk = [] then
      if t - lastData > timeout then .stalled label timeout
      else dl_loop timeout label rest lastData file downloaded
    else dl_loop timeout label rest t (file ++ chunk) (downloaded + chunk.length)

/-- Embedding of `download_with_watchdog`: `startT` is the value of
`time.time()` taken when `last_data_time` is initialised, `steps` the
iteration sequence produced by the response. -/
def download_with_watchdog (steps : List (Nat × List Nat)) (label : String)
    (timeout : Nat) (startT : Nat) : DlResult :=
  dl_loop timeout label steps startT [] 0

/-! ## Version selection in the dependency materializer

Python source (`ensure_tor_files`):
```
versions.sort(key=lambda s: list(map(int, s.split("."))))
latest = versions[-1]
```
`list.sort` with that key orders version strings by their dotted integer
tuples (Python compares lists of ints lexicographically) and is a stable
sort; `versions[-1]` then picks the last, i.e. a greatest, element.  We
model the key, the induced order, and the selection; the sort is
`List.insertionSort`, a stable sort with the same specification.
-/

/-- Embedding of Python `int` on a digit string. -/
def digitsToNat (l : List Char) : Nat := l.foldl (fun n c => n * 10 + (c.toNat - 48)) 0

/-- Embedding of `s.split(".")` over the character list. -/
def splitDots : List Char → List (List Char)
  | [] => [[]]
  | c :: cs =>
    let r := splitDots cs
    if c = '.' then [] :: r
    else
      match r with
      | [] => [[c]]
      | g :: gs => (c :: g) :: gs

/-- Embedding of the sort key `lambda s: list(map(int, s.split(".")))`. -/
def parseVersion (s : String) : List Nat := (splitDots s.toList).map digitsToNat

/-- Lexicographic comparison of integer lists, exactly Python's `<=` on
`list[int]` (a proper prefix compares below). -/
def natListLE : List Nat → List Nat → Bool
  | [], _ => true
  | _ :: _, [] => false
  | a :: as, b :: bs => if a < b then true else if b < a then false else natListLE as bs

/-- The order in which the materializer sorts version strings: comparison
of the parsed dotted integer tuples. -/
def verLE (a b : String) : Prop := natListLE (parseVersion a) (parseVersion b) = true

instance : DecidableRel verLE := fun a b => by
  unfold verLE
  infer_instance

/-- Embedding of `versions.sort(key=...); latest = versions[-1]`: sort by
the dotted-integer key and take the last element (`""` stands for the
`IndexError` an empty list would raise; the claims only use non-empty
lists). -/
def latest_version (versions : List String) : String :=
  (List.insertionSort verLE versions).getLastD ""

/-! ## Tor process supervisor

Python source: module globals `tor_process`, `torrc_path`,
`tor_started_by_us` and the functions
```
def terminate_tor_process():
    global tor_process, torrc_path, tor_started_by_us
    if tor_process and tor_process.poll() is None and tor_started_by_us:
        tor_process.terminate()
        try:
            tor_process.wait(timeout=5)
        except Exception:
            tor_process.kill()
    tor_process = None
    tor_started_by_us = False
    if torrc_path and os.path.exists(torrc_path):
        os.remove(torrc_path)
        torrc_path = None

def start_tor_process(country_code: str):
    global tor_process, torrc_path, tor_started_by_us
    terminate_tor_process()
    tor_path = ensure_tor_files()
    ...write torrc to a fresh NamedTemporaryFile (delete=False)...
    tor_process = subprocess.Popen([tor_path, "-f", torrc_path], ...)
    tor_started_by_us = True
```
The world tracks the live tor processes (pids) and the torrc artifacts
on disk, plus a fresh-name counter for `NamedTemporaryFile` / `Popen`.
`tor_process.poll() is None` is modelled as the pid being in `alive`;
`terminate()`/`kill()` of a live process removes it.  Side effects the
claims inspect are recorded as events.
-/

/-- Observable side effects of the supervisor and the rotation loop. -/
inductive Event where
  | kill
  | start (country : String)
  | notReady (country : String)
  | probe (country : String)
  | fetch (country : String)
  | fetchFail (country : String)
  | success
  | failAll
  deriving DecidableEq

/-- External state: live tor processes, torrc artifacts on disk, and a
fresh-name supply for temp files and pids. -/
structure World where
  alive : List Nat
  files : List Nat
  nextId : Nat
  deriving DecidableEq

/-- The module globals of `main.py`. -/
structure TorState where
  tor_process : Option Nat
  torrc_path : Option Nat
  tor_started_by_us : Bool
  deriving DecidableEq

/-- Result of one supervisor call: updated world and globals, plus the
events it emitted. -/
structure StepResult where
  world : World
  state : TorState
  events : List Event
  deriving DecidableEq

/-- First half of `terminate_tor_process`: kill the subprocess iff the
handle is set, the process is still running, and we started it. -/
def killStep (w : World) (s : TorState) : World × List Event :=
  match s.tor_process with
  | some pid =>
    if pid ∈ w.alive ∧ s.tor_started_by_us then
      ({ w with alive := w.alive.filter (fun p => p ≠ pid) }, [Event.kill])
    else (w, [])
  | none => (w, [])

/-- Second half of `terminate_tor_process`: `if torrc_path and
os.path.exists(torrc_path): os.remove(torrc_path); torrc_path = None`. -/
def cleanupTorrc (w : World) (s : TorState) (evs : List Event) : StepResult :=
  match s.torrc_path with
  | some f =>
    if f ∈ w.files then
      ⟨{ w with files := w.files.filter (fun g => g ≠ f) }, { s with torrc_path := none }, evs⟩
    else ⟨w, s, evs⟩
  | none => ⟨w, s, evs⟩

/-- Embedding of `terminate_tor_process`. -/
def terminate_tor_process (w : World) (s : TorState) : StepResult :=
  let k := killStep w s
  cleanupTorrc k.1 ⟨none, s.torrc_path, false⟩ k.2

/-- Embedding of `start_tor_process`: unconditional pre-termination, a
fresh torrc artifact, then `Popen` of a fresh pid, marked self-started.
(`ensure_tor_files` resolves the binary; it touches no state the claims
are about.) -/
def start_tor_process (country : String) (w : World) (s : TorState) : StepResult :=
  let t := terminate_tor_process w s
  let torrcId := t.world.nextId
  let w1 : World := ⟨t.world.alive, torrcId :: t.world.files, t.world.nextId + 1⟩
  let pid := w1.nextId
  let w2 : World := ⟨pid :: w1.alive, w1.files, w1.nextId + 1⟩
  ⟨w2, ⟨some pid, some torrcId, true⟩, t.events ++ [Event.start country]⟩

/-! ## Egress rotation loop

Python source (`download_video`), after the `ydl_opts` setup:
```
for country in SAFE_COUNTRIES:
    print(f"\nTrying Tor exit node: {country.upper()}")
    start_tor_process(country)
    if not wait_for_tor():
        print("Tor failed to start, trying next country")
        continue
    test_tor_connection()
    try:
        with yt_dlp.YoutubeDL(ydl_opts) as ydl:
            ydl.download([url])
        print("Download succeeded!")
        return
    except Exception as e:
        print(f"Failed via {country.upper()}: {e}")
print("All Tor exit nodes failed.")
```
`test_tor_connection` is NOT inside the `try`: an exception it raises
propagates out of `download_video`.  The environment supplies, per
candidate, the outcome of `wait_for_tor`, of the probe's
`requests.get` (OK response / non-OK response / raised), and of
`ydl.download` (returned / raised).  `atexit.register(terminate_tor_process)`
runs the supervisor teardown at interpreter exit; `run_with_cleanup`
composes the loop with that handler.
-/

/-- Outcome of the `requests.get` inside `test_tor_connection`. -/
inductive ProbeOutcome where
  | ok
  | notOk
  | raises (msg : String)
  deriving DecidableEq

/-- Outcome of `ydl.download([url])`. -/
inductive FetchOutcome where
  | ok
  | raises (msg : String)
  deriving DecidableEq

/-- Per-candidate behaviour of the network environment. -/
structure CandidateEnv where
  ready : Bool
  probe : ProbeOutcome
  fetch : FetchOutcome
  deriving DecidableEq

/-- How `download_video` finishes: a normal return (Python returns
`None`) or an uncaught exception propagating out. -/
inductive RunResult where
  | normal
  | raised (msg : String)
  deriving DecidableEq

/-- Result of running the rotation loop. -/
structure RunOut where
  world : World
  state : TorState
  events : List Event
  result : RunResult
  deriving DecidableEq

/-- Embedding of the `for country in SAFE_COUNTRIES` loop of
`download_video`, over an explicit candidate list paired with the
environment's behaviour for each candidate. -/
def attempt_loop : List (String × CandidateEnv) → World → TorState → RunOut
  | [], w, s => ⟨w, s, [Event.failAll], .normal⟩
  | (c, e) :: rest, w, s =>
    let r := start_tor_process c w s
    if e.ready = false then
      let out := attempt_loop rest r.world r.state
      ⟨out.world, out.state, r.events ++ [Event.notReady c] ++ out.events, out.result⟩
    else
      match e.probe with
      | .raises msg => ⟨r.world, r.state, r.events ++ [Event.probe c], .raised msg⟩
      | _ =>
        match e.fetch with
        | .ok =>
          ⟨r.world, r.state, r.events ++ [Event.probe c, Event.fetch c, Event.success], .normal⟩
        | .raises _ =>
          let out := attempt_loop rest r.world r.state
          ⟨out.world, out.state,
            r.events ++ [Event.probe c, Event.fetch c, Event.fetchFail c] ++ out.events, out.result⟩

/-- The hardcoded priority list of exit countries. -/
def SAFE_COUNTRIES : List String := ["se", "ch", "nl", "is", "no", "fi", "dk", "de"]

/-- Embedding of `download_video`: the rotation loop over
`SAFE_COUNTRIES` with the environment's behaviour per country. -/
def download_video (env : String → CandidateEnv) (w : World) (s : TorState) : RunOut :=
  attempt_loop (SAFE_COUNTRIES.map (fun c => (c, env c))) w s

/-- The rotation loop followed by the `atexit`-registered
`terminate_tor_process`, i.e. a whole program run. -/
def run_with_cleanup (l : List (String × CandidateEnv)) (w : World) (s : TorState) : RunOut :=
  let out := attempt_loop l w s
  let t := terminate_tor_process out.world out.state
  ⟨t.world, t.state, out.events ++ t.events, out.result⟩

/-- Countries passed to `subprocess.Popen`, in emission order. -/
def startsOf (evs : List Event) : List String :=
  evs.filterMap (fun e => match e with | .start c => some c | _ => none)

/-- Number of kill/terminate signals sent to a live self-started process. -/
def killCount (evs : List Event) : Nat :=
  (evs.filter (fun e => e = Event.kill)).length

/-- Number of invocations of the external media fetcher. -/
def fetchCount (evs : List Event) : Nat :=
  (evs.filter (fun e => match e with | .fetch _ => true | _ => false)).length

/-- The session holds a live process this orchestrator started. -/
def liveSelf (w : World) (s : TorState) : Prop :=
  ∃ p, s.tor_process = some p ∧ p ∈ w.alive ∧ s.tor_started_by_us = true

/-- A candidate attempt fails without aborting the run: readiness times
out, or the probe does not raise and the fetcher raises. -/
def candidateFails (e : CandidateEnv) : Prop :=
  e.ready = false ∨ ((∀ m, e.probe ≠ .raises m) ∧ ∃ m, e.fetch = .raises m)

lemma toList_mk (l : List Char) : (String.mk l).toList = l := rfl

lemma spaceToUnderscore_ne_space (c : Char) : spaceToUnderscore c ≠ ' ' := by
  unfold spaceToUnderscore
  split
  · simp
  · assumption

lemma forbiddenChar_spaceToUnderscore (c : Char) (h : forbiddenChar c = false) :
    forbiddenChar (spaceToUnderscore c) = false := by
  unfold spaceToUnderscore
  split
  · rfl
  · exact h

lemma mem_sanitize (s : String) (c : Char) (hc : c ∈ (sanitize_filename s).toList) :
    forbiddenChar c = false ∧ c ≠ ' ' := by
  unfold sanitize_filename at hc
  rw [toList_mk] at hc
  rcases List.mem_map.mp hc with ⟨d, hd, rfl⟩
  refine ⟨?_, spaceToUnderscore_ne_space d⟩
  have := List.of_mem_filter hd
  simp only [Bool.not_eq_true'] at this
  exact forbiddenChar_spaceToUnderscore d this

lemma sanitize_idem (s : String) :
    sanitize_filename (sanitize_filename s) = sanitize_filename s := by
  have hmem := mem_sanitize s
  unfold sanitize_filename
  rw [toList_mk]
  set l := ((s.toList.filter (fun c => !forbiddenChar c)).map spaceToUnderscore) with hl
  have hfilter : l.filter (fun c => !forbiddenChar c) = l := by
    apply List.filter_eq_self.mpr
    intro a ha
    have := (hmem a (by rw [hl] at ha; exact ha)).1
    simp [this]
  rw [hfilter]
  have hmap : l.map spaceToUnderscore = l := by
    conv_rhs => rw [← List.map_id l]
    apply List.map_congr_left
    intro a ha
    have h2 := (hmem a (by rw [hl] at ha; exact ha)).2
    unfold spaceToUnderscore
    simp [h2]
  rw [hmap]

lemma dl_loop_ok (timeout : Nat) (label : String) :
    ∀ (steps : List (Nat × List Nat)) (lastData : Nat) (file : List Nat)
      (downloaded : Nat) (f : List Nat) (d : Nat),
      dl_loop timeout label steps lastData file downloaded = .ok f d →
      f = file ++ (steps.map Prod.snd).flatten ∧
      d = downloaded + (steps.map Prod.snd).flatten.length
  | [], lastData, file, downloaded, f, d => by
    intro h
    simp only [dl_loop, DlResult.ok.injEq] at h
    simp [h.1, h.2]
  | (t, chunk) :: rest, lastData, file, downloaded, f, d => by
    intro h
    simp only [dl_loop] at h
    by_cases hc : chunk = ([] : List Nat)
    · rw [if_pos hc] at h
      by_cases ht : t - lastData > timeout
      · rw [if_pos ht] at h
        exact absurd h (by simp)
      · rw [if_neg ht] at h
        have := dl_loop_ok timeout label rest lastData file downloaded f d h
        simpa [hc] using this
    · rw [if_neg hc] at h
      obtain ⟨h1, h2⟩ := dl_loop_ok timeout label rest t (file ++ chunk)
        (downloaded + chunk.length) f d h
      simp only [List.map_cons, List.flatten_cons]
      constructor
      · rw [h1, List.append_assoc]
      · rw [h2, List.length_append]
        omega

lemma flatten_filter_ne_nil (l : List (List Nat)) :
    (l.filter (fun c => c ≠ [])).flatten = l.flatten := by
  induction l with
  | nil => rfl
  | cons a as ih =>
    rw [List.filter_cons]
    by_cases ha : a = ([] : List Nat)
    · rw [if_neg (by simp [ha]), ih, ha]
      simp
    · rw [if_pos (by simp [ha]), List.flatten_cons, List.flatten_cons, ih]

lemma natListLE_cons_iff (a b : Nat) (as bs : List Nat) :
    natListLE (a :: as) (b :: bs) = true ↔ a < b ∨ (a = b ∧ natListLE as bs = true) := by
  simp only [natListLE]
  rcases Nat.lt_trichotomy a b with h | h | h
  · simp [h]
  · subst h
    simp [Nat.lt_irrefl]
  · rw [if_neg (Nat.lt_asymm h), if_pos h]
    simp [Nat.lt_asymm h, Nat.ne_of_gt h]

lemma natListLE_refl : ∀ (x : List Nat), natListLE x x = true
  | [] => rfl
  | a :: as => by
    rw [natListLE_cons_iff]
    exact Or.inr ⟨rfl, natListLE_refl as⟩

lemma natListLE_total : ∀ (x y : List Nat), natListLE x y = true ∨ natListLE y x = true
  | [], _ => Or.inl rfl
  | _ :: _, [] => Or.inr rfl
  | a :: as, b :: bs => by
    rw [natListLE_cons_iff, natListLE_cons_iff]
    rcases Nat.lt_trichotomy a b with h | h | h
    · exact Or.inl (Or.inl h)
    · subst h
      rcases natListLE_total as bs with h2 | h2
      · exact Or.inl (Or.inr ⟨rfl, h2⟩)
      · exact Or.inr (Or.inr ⟨rfl, h2⟩)
    · exact Or.inr (Or.inl h)

lemma natListLE_trans : ∀ (x y z : List Nat),
    natListLE x y = true → natListLE y z = true → natListLE x z = true
  | [], _, _ => fun _ _ => rfl
  | _ :: _, [], _ => fun h _ => absurd h (by simp [natListLE])
  | _ :: _, _ :: _, [] => fun _ h => absurd h (by simp [natListLE])
  | a :: as, b :: bs, c :: cs => by
    rw [natListLE_cons_iff, natListLE_cons_iff, natListLE_cons_iff]
    rintro (h1 | ⟨rfl, h1⟩) (h2 | ⟨rfl, h2⟩)
    · exact Or.inl (Nat.lt_trans h1 h2)
    · exact Or.inl h1
    · exact Or.inl h2
    · exact Or.inr ⟨rfl, natListLE_trans as bs cs h1 h2⟩

instance : IsTotal String verLE :=
  ⟨fun a b => natListLE_total (parseVersion a) (parseVersion b)⟩

instance : IsTrans String verLE :=
  ⟨fun a b c => natListLE_trans (parseVersion a) (parseVersion b) (parseVersion c)⟩

lemma getLastD_mem {α : Type} (d : α) : ∀ (l : List α), l ≠ [] → l.getLastD d ∈ l
  | [], h => absurd rfl h
  | [a], _ => by simp
  | a :: b :: t, _ => by
    have h1 : (a :: b :: t).getLastD d = (b :: t).getLastD d := by
      simp [List.getLastD_cons]
    rw [h1]
    exact List.mem_cons_of_mem a (getLastD_mem d (b :: t) (by simp))

lemma pairwise_getLastD {α : Type} (r : α → α → Prop) (d : α) :
    ∀ (l : List α), l ≠ [] → (∀ a ∈ l, r a a) → l.Pairwise r →
      ∀ x ∈ l, r x (l.getLastD d)
  | [], h, _, _ => absurd rfl h
  | [a], _, hrefl, _ => by
    intro x hx
    simp only [List.mem_singleton] at hx
    subst hx
    simpa using hrefl x (by simp)
  | a :: b :: t, _, hrefl, hp => by
    intro x hx
    have hlast : (a :: b :: t).getLastD d = (b :: t).getLastD d := by
      simp [List.getLastD_cons]
    rw [hlast]
    rcases List.mem_cons.mp hx with rfl | hx2
    · exact List.rel_of_pairwise_cons hp (getLastD_mem d (b :: t) (by simp))
    · exact pairwise_getLastD r d (b :: t) (by simp)
        (fun y hy => hrefl y (List.mem_cons_of_mem a hy)) hp.of_cons x hx2

/-- The selected version is a member of the input list and its key is an
upper bound of every member's key. -/
lemma latest_version_max (versions : List String) (hne : versions ≠ []) :
    latest_version versions ∈ versions ∧
      ∀ v ∈ versions, verLE v (latest_version versions) := by
  have hperm : (List.insertionSort verLE versions) ≠ [] := by
    intro h
    apply hne
    have hlen := (List.perm_insertionSort verLE versions).length_eq
    rw [h] at hlen
    exact List.eq_nil_of_length_eq_zero hlen.symm
  constructor
  · exact (List.mem_insertionSort verLE).mp (getLastD_mem "" _ hperm)
  · intro v hv
    have hs := List.sorted_insertionSort verLE versions
    exact pairwise_getLastD verLE "" _ hperm
      (fun a _ => natListLE_refl (parseVersion a)) hs v
      ((List.mem_insertionSort verLE).mpr hv)

lemma cleanupTorrc_preserves (w : World) (s : TorState) (evs : List Event) :
    (cleanupTorrc w s evs).events = evs ∧
    (cleanupTorrc w s evs).state.tor_process = s.tor_process ∧
    (cleanupTorrc w s evs).state.tor_started_by_us = s.tor_started_by_us ∧
    (cleanupTorrc w s evs).world.alive = w.alive ∧
    (cleanupTorrc w s evs).world.nextId = w.nextId := by
  unfold cleanupTorrc
  split
  · split
    · exact ⟨rfl, rfl, rfl, rfl, rfl⟩
    · exact ⟨rfl, rfl, rfl, rfl, rfl⟩
  · exact ⟨rfl, rfl, rfl, rfl, rfl⟩

lemma cleanupTorrc_torrc (w : World) (s : TorState) (evs : List Event) (f : Nat)
    (h : (cleanupTorrc w s evs).state.torrc_path = some f) :
    f ∉ (cleanupTorrc w s evs).world.files := by
  rcases hs : s.torrc_path with _ | g
  · simp only [cleanupTorrc, hs] at h ⊢
    cases h
  · by_cases hm : g ∈ w.files
    · simp [cleanupTorrc, hs, hm] at h
    · simp only [cleanupTorrc, hs, if_neg hm] at h ⊢
      injection h with h
      subst h
      exact hm

lemma killStep_not_started (w : World) (s : TorState)
    (h : s.tor_started_by_us = false) : killStep w s = (w, []) := by
  unfold killStep
  split
  · rw [if_neg]
    rintro ⟨-, hs⟩
    rw [h] at hs
    cases hs
  · rfl

lemma killStep_idle (w : World) (s : TorState)
    (h : s.tor_process = none) : killStep w s = (w, []) := by
  unfold killStep
  split
  next pid hp =>
    rw [h] at hp
    cases hp
  · rfl

lemma terminate_resets (w : World) (s : TorState) :
    (terminate_tor_process w s).state.tor_process = none ∧
    (terminate_tor_process w s).state.tor_started_by_us = false := by
  unfold terminate_tor_process
  have h := cleanupTorrc_preserves (killStep w s).1 ⟨none, s.torrc_path, false⟩ (killStep w s).2
  exact ⟨h.2.1, h.2.2.1⟩

lemma terminate_events (w : World) (s : TorState) :
    (terminate_tor_process w s).events = (killStep w s).2 :=
  (cleanupTorrc_preserves _ _ _).1

lemma terminate_torrc_dangling (w : World) (s : TorState) (f : Nat)
    (h : (terminate_tor_process w s).state.torrc_path = some f) :
    f ∉ (terminate_tor_process w s).world.files := by
  unfold terminate_tor_process at h ⊢
  exact cleanupTorrc_torrc _ _ _ f h

/-- On a state that is already torn down, `terminate_tor_process` is a
no-op emitting no events. -/
lemma terminate_noop (w : World) (s : TorState)
    (h1 : s.tor_process = none) (h2 : s.tor_started_by_us = false)
    (h3 : ∀ f, s.torrc_path = some f → f ∉ w.files) :
    terminate_tor_process w s = ⟨w, s, []⟩ := by
  unfold terminate_tor_process
  rw [killStep_idle w s h1]
  have hstate : (⟨none, s.torrc_path, false⟩ : TorState) = s := by
    cases s
    simp only at h1 h2 ⊢
    rw [h1, h2]
  rw [hstate]
  rcases hf : s.torrc_path with _ | f
  · simp [cleanupTorrc, hf]
  · simp [cleanupTorrc, hf, h3 f hf]

/-- Calling `terminate_tor_process` twice: the second call changes
nothing and emits nothing. -/
lemma terminate_terminate (w : World) (s : TorState) :
    terminate_tor_process (terminate_tor_process w s).world (terminate_tor_process w s).state =
      ⟨(terminate_tor_process w s).world, (terminate_tor_process w s).state, []⟩ :=
  terminate_noop _ _ (terminate_resets w s).1 (terminate_resets w s).2
    (fun f hf => terminate_torrc_dangling w s f hf)

lemma start_tor_process_eq (c : String) (w : World) (s : TorState) :
    start_tor_process c w s =
      ⟨⟨((terminate_tor_process w s).world.nextId + 1) :: (terminate_tor_process w s).world.alive,
        ((terminate_tor_process w s).world.nextId) :: (terminate_tor_process w s).world.files,
        (terminate_tor_process w s).world.nextId + 2⟩,
       ⟨some ((terminate_tor_process w s).world.nextId + 1),
        some ((terminate_tor_process w s).world.nextId), true⟩,
       (terminate_tor_process w s).events ++ [Event.start c]⟩ := rfl

lemma start_liveSelf (c : String) (w : World) (s : TorState) :
    liveSelf (start_tor_process c w s).world (start_tor_process c w s).state := by
  rw [start_tor_process_eq]
  exact ⟨(terminate_tor_process w s).world.nextId + 1, rfl, List.mem_cons_self _ _, rfl⟩

lemma killStep_live (w : World) (s : TorState) (h : liveSelf w s) :
    (killStep w s).2 = [Event.kill] := by
  obtain ⟨p, hp, hmem, hstart⟩ := h
  unfold killStep
  simp [hp, hmem, hstart]

lemma killStep_cases (w : World) (s : TorState) :
    (killStep w s).2 = [] ∨ (killStep w s).2 = [Event.kill] := by
  unfold killStep
  split
  · split
    · exact Or.inr rfl
    · exact Or.inl rfl
  · exact Or.inl rfl

lemma start_events_live (c : String) (w : World) (s : TorState) (h : liveSelf w s) :
    (start_tor_process c w s).events = [Event.kill, Event.start c] := by
  rw [start_tor_process_eq]
  show (terminate_tor_process w s).events ++ [Event.start c] = _
  rw [terminate_events, killStep_live w s h]
  rfl

lemma start_events_idle (c : String) (w : World) (s : TorState) (h : s.tor_process = none) :
    (start_tor_process c w s).events = [Event.start c] := by
  rw [start_tor_process_eq]
  show (terminate_tor_process w s).events ++ [Event.start c] = _
  rw [terminate_events, killStep_idle w s h]
  rfl

lemma start_events_not_started (c : String) (w : World) (s : TorState)
    (h : s.tor_started_by_us = false) :
    (start_tor_process c w s).events = [Event.start c] := by
  rw [start_tor_process_eq]
  show (terminate_tor_process w s).events ++ [Event.start c] = _
  rw [terminate_events, killStep_not_started w s h]
  rfl

lemma start_events_shape (c : String) (w : World) (s : TorState) :
    ∀ e ∈ (start_tor_process c w s).events, e = Event.kill ∨ e = Event.start c := by
  intro e he
  rw [start_tor_process_eq] at he
  show e = Event.kill ∨ e = Event.start c
  have he2 : e ∈ (terminate_tor_process w s).events ++ [Event.start c] := he
  rcases List.mem_append.mp he2 with h1 | h1
  · rw [terminate_events] at h1
    rcases killStep_cases w s with h2 | h2 <;> rw [h2] at h1
    · cases h1
    · simp only [List.mem_singleton] at h1
      exact Or.inl h1
  · simp only [List.mem_singleton] at h1
    exact Or.inr h1

lemma attempt_loop_notReady (c : String) (e : CandidateEnv)
    (rest : List (String × CandidateEnv)) (w : World) (s : TorState) (h : e.ready = false) :
    attempt_loop ((c, e) :: rest) w s =
      ⟨(attempt_loop rest (start_tor_process c w s).world (start_tor_process c w s).state).world,
       (attempt_loop rest (start_tor_process c w s).world (start_tor_process c w s).state).state,
       (start_tor_process c w s).events ++ [Event.notReady c] ++
         (attempt_loop rest (start_tor_process c w s).world (start_tor_process c w s).state).events,
       (attempt_loop rest (start_tor_process c w s).world (start_tor_process c w s).state).result⟩ := by
  simp only [attempt_loop]
  rw [if_pos h]

lemma attempt_loop_probeRaises (c : String) (e : CandidateEnv)
    (rest : List (String × CandidateEnv)) (w : World) (s : TorState) (msg : String)
    (hr : e.ready = true) (hp : e.probe = .raises msg) :
    attempt_loop ((c, e) :: rest) w s =
      ⟨(start_tor_process c w s).world, (start_tor_process c w s).state,
       (start_tor_process c w s).events ++ [Event.probe c], .raised msg⟩ := by
  simp only [attempt_loop, hp]
  rw [if_neg (by simp [hr])]

lemma attempt_loop_fetchOk (c : String) (e : CandidateEnv)
    (rest : List (String × CandidateEnv)) (w : World) (s : TorState)
    (hr : e.ready = true) (hp : ∀ m, e.probe ≠ .raises m) (hf : e.fetch = .ok) :
    attempt_loop ((c, e) :: rest) w s =
      ⟨(start_tor_process c w s).world, (start_tor_process c w s).state,
       (start_tor_process c w s).events ++ [Event.probe c, Event.fetch c, Event.success],
       .normal⟩ := by
  rcases he : e.probe with _ | _ | m
  · simp only [attempt_loop, he, hf]
    rw [if_neg (by simp [hr])]
  · simp only [attempt_loop, he, hf]
    rw [if_neg (by simp [hr])]
  · exact absurd he (hp m)

lemma attempt_loop_fetchRaises (c : String) (e : CandidateEnv)
    (rest : List (String × CandidateEnv)) (w : World) (s : TorState) (m : String)
    (hr : e.ready = true) (hp : ∀ m2, e.probe ≠ .raises m2) (hf : e.fetch = .raises m) :
    attempt_loop ((c, e) :: rest) w s =
      ⟨(attempt_loop rest (start_tor_process c w s).world (start_tor_process c w s).state).world,
       (attempt_loop rest (start_tor_process c w s).world (start_tor_process c w s).state).state,
       (start_tor_process c w s).events ++ [Event.probe c, Event.fetch c, Event.fetchFail c] ++
         (attempt_loop rest (start_tor_process c w s).world (start_tor_process c w s).state).events,
       (attempt_loop rest (start_tor_process c w s).world (start_tor_process c w s).state).result⟩ := by
  rcases he : e.probe with _ | _ | m2
  · simp only [attempt_loop, he, hf]
    rw [if_neg (by simp [hr])]
  · simp only [attempt_loop, he, hf]
    rw [if_neg (by simp [hr])]
  · exact absurd he (hp m2)

lemma startsOf_append (a b : List Event) : startsOf (a ++ b) = startsOf a ++ startsOf b := by
  unfold startsOf
  rw [List.filterMap_append]

lemma killCount_append (a b : List Event) : killCount (a ++ b) = killCount a + killCount b := by
  unfold killCount
  rw [List.filter_append, List.length_append]

lemma fetchCount_append (a b : List Event) : fetchCount (a ++ b) = fetchCount a + fetchCount b := by
  unfold fetchCount
  rw [List.filter_append, List.length_append]

lemma run_with_cleanup_notReady (c : String) (e : CandidateEnv)
    (rest : List (String × CandidateEnv)) (w : World) (s : TorState) (h : e.ready = false) :
    (run_with_cleanup ((c, e) :: rest) w s).events =
      (start_tor_process c w s).events ++ [Event.notReady c] ++
        (run_with_cleanup rest (start_tor_process c w s).world (start_tor_process c w s).state).events ∧
    (run_with_cleanup ((c, e) :: rest) w s).result =
      (run_with_cleanup rest (start_tor_process c w s).world (start_tor_process c w s).state).result := by
  unfold run_with_cleanup
  rw [attempt_loop_notReady c e rest w s h]
  exact ⟨by simp, rfl⟩

lemma cleanup_allNotReady_live :
    ∀ (l : List (String × CandidateEnv)) (w : World) (s : TorState),
      (∀ p ∈ l, p.2.ready = false) → liveSelf w s →
        startsOf (run_with_cleanup l w s).events = l.map Prod.fst ∧
        killCount (run_with_cleanup l w s).events = l.length + 1 ∧
        fetchCount (run_with_cleanup l w s).events = 0 ∧
        Event.failAll ∈ (run_with_cleanup l w s).events ∧
        (run_with_cleanup l w s).result = .normal
  | [], w, s => by
    intro _ hlive
    have hterm : (terminate_tor_process w s).events = [Event.kill] := by
      rw [terminate_events, killStep_live w s hlive]
    have hrun : run_with_cleanup [] w s =
        ⟨(terminate_tor_process w s).world, (terminate_tor_process w s).state,
         [Event.failAll] ++ (terminate_tor_process w s).events, .normal⟩ := rfl
    rw [hrun, hterm]
    exact ⟨rfl, rfl, rfl, by simp, rfl⟩
  | (c, e) :: rest, w, s => by
    intro hall hlive
    have hready : e.ready = false := hall (c, e) (List.mem_cons_self _ _)
    obtain ⟨hev, hres⟩ := run_with_cleanup_notReady c e rest w s hready
    have ih := cleanup_allNotReady_live rest (start_tor_process c w s).world
      (start_tor_process c w s).state (fun p hp => hall p (List.mem_cons_of_mem _ hp))
      (start_liveSelf c w s)
    have hstart := start_events_live c w s hlive
    refine ⟨?_, ?_, ?_, ?_, ?_⟩
    · rw [hev, hstart, startsOf_append, startsOf_append, ih.1]
      simp [startsOf]
    · rw [hev, hstart, killCount_append, killCount_append, ih.2.1]
      simp only [List.length_cons]
      show killCount [Event.kill, Event.start c] + killCount [Event.notReady c] +
        (rest.length + 1) = rest.length + 1 + 1
      have h1 : killCount [Event.kill, Event.start c] = 1 := rfl
      have h2 : killCount [Event.notReady c] = 0 := rfl
      omega
    · rw [hev, hstart, fetchCount_append, fetchCount_append, ih.2.2.1]
      have h1 : fetchCount [Event.kill, Event.start c] = 0 := rfl
      have h2 : fetchCount [Event.notReady c] = 0 := rfl
      omega
    · rw [hev]
      exact List.mem_append.mpr (Or.inr ih.2.2.2.1)
    · rw [hres]
      exact ih.2.2.2.2

lemma cleanup_allNotReady_idle (l : List (String × CandidateEnv)) (w : World) (s : TorState)
    (hall : ∀ p ∈ l, p.2.ready = false) (hidle : s.tor_process = none) :
    startsOf (run_with_cleanup l w s).events = l.map Prod.fst ∧
    killCount (run_with_cleanup l w s).events = l.length ∧
    fetchCount (run_with_cleanup l w s).events = 0 ∧
    Event.failAll ∈ (run_with_cleanup l w s).events ∧
    (run_with_cleanup l w s).result = .normal := by
  cases l with
  | nil =>
    have hterm : (terminate_tor_process w s).events = [] := by
      rw [terminate_events, killStep_idle w s hidle]
    have hrun : run_with_cleanup [] w s =
        ⟨(terminate_tor_process w s).world, (terminate_tor_process w s).state,
         [Event.failAll] ++ (terminate_tor_process w s).events, .normal⟩ := rfl
    rw [hrun, hterm]
    exact ⟨rfl, rfl, rfl, by simp, rfl⟩
  | cons p rest =>
    obtain ⟨c, e⟩ := p
    have hready : e.ready = false := hall (c, e) (List.mem_cons_self _ _)
    obtain ⟨hev, hres⟩ := run_with_cleanup_notReady c e rest w s hready
    have ih := cleanup_allNotReady_live rest (start_tor_process c w s).world
      (start_tor_process c w s).state (fun p hp => hall p (List.mem_cons_of_mem _ hp))
      (start_liveSelf c w s)
    have hstart := start_events_idle c w s hidle
    refine ⟨?_, ?_, ?_, ?_, ?_⟩
    · rw [hev, hstart, startsOf_append, startsOf_append, ih.1]
      simp [startsOf]
    · rw [hev, hstart, killCount_append, killCount_append, ih.2.1]
      simp only [List.length_cons]
      have h1 : killCount [Event.start c] = 0 := rfl
      have h2 : killCount [Event.notReady c] = 0 := rfl
      omega
    · rw [hev, hstart, fetchCount_append, fetchCount_append, ih.2.2.1]
      have h1 : fetchCount [Event.start c] = 0 := rfl
      have h2 : fetchCount [Event.notReady c] = 0 := rfl
      omega
    · rw [hev]
      exact List.mem_append.mpr (Or.inr ih.2.2.2.1)
    · rw [hres]
      exact ih.2.2.2.2

lemma loop_allFail (l : List (String × CandidateEnv)) :
    ∀ (w : World) (s : TorState), (∀ p ∈ l, candidateFails p.2) →
      (attempt_loop l w s).result = .normal ∧
      Event.failAll ∈ (attempt_loop l w s).events ∧
      Event.success ∉ (attempt_loop l w s).events := by
  induction l with
  | nil =>
    intro w s _
    exact ⟨rfl, by simp [attempt_loop], by simp [attempt_loop]⟩
  | cons p rest ih =>
    obtain ⟨c, e⟩ := p
    intro w s hall
    have hfail : candidateFails e := hall (c, e) (List.mem_cons_self _ _)
    have ihr := ih (start_tor_process c w s).world (start_tor_process c w s).state
      (fun p hp => hall p (List.mem_cons_of_mem _ hp))
    have hshape := start_events_shape c w s
    cases hready : e.ready with
    | false =>
      rw [attempt_loop_notReady c e rest w s hready]
      refine ⟨ihr.1, ?_, ?_⟩
      · exact List.mem_append.mpr (Or.inr ihr.2.1)
      · intro hmem
        rcases List.mem_append.mp hmem with h1 | h1
        · rcases List.mem_append.mp h1 with h2 | h2
          · rcases hshape _ h2 with h3 | h3 <;> cases h3
          · simp only [List.mem_singleton] at h2
            cases h2
        · exact ihr.2.2 h1
    | true =>
      rcases hfail with hfail | ⟨hnp, m, hf⟩
      · rw [hready] at hfail
        cases hfail
      · rw [attempt_loop_fetchRaises c e rest w s m hready hnp hf]
        refine ⟨ihr.1, ?_, ?_⟩
        · exact List.mem_append.mpr (Or.inr ihr.2.1)
        · intro hmem
          rcases List.mem_append.mp hmem with h1 | h1
          · rcases List.mem_append.mp h1 with h2 | h2
            · rcases hshape _ h2 with h3 | h3 <;> cases h3
            · simp at h2
          · exact ihr.2.2 h1

lemma terminate_idle_world (w : World) (s : TorState) (h : s.tor_process = none) :
    (terminate_tor_process w s).world.alive = w.alive ∧
    (terminate_tor_process w s).world.nextId = w.nextId := by
  unfold terminate_tor_process
  rw [killStep_idle w s h]
  have hp := cleanupTorrc_preserves w ⟨none, s.torrc_path, false⟩ []
  exact ⟨hp.2.2.2.1, hp.2.2.2.2⟩

lemma terminate_single (a f2 : Nat) (F : List Nat) (nid : Nat) :
    terminate_tor_process ⟨[a], f2 :: F, nid⟩ ⟨some a, some f2, true⟩ =
      ⟨⟨[], F.filter (fun g => g ≠ f2), nid⟩, ⟨none, none, false⟩, [Event.kill]⟩ := by
  unfold terminate_tor_process killStep cleanupTorrc
  simp

lemma terminate_not_started_world (w : World) (s : TorState)
    (h : s.tor_started_by_us = false) (p : Nat) (hp : p ∈ w.alive) :
    p ∈ (terminate_tor_process w s).world.alive := by
  unfold terminate_tor_process
  rw [killStep_not_started w s h]
  have hpr := cleanupTorrc_preserves w ⟨none, s.torrc_path, false⟩ []
  rw [hpr.2.2.2.1]
  exact hp

lemma terminate_not_started_cleanup (w : World) (s : TorState)
    (h : s.tor_started_by_us = false) (f : Nat) (hf : s.torrc_path = some f)
    (hmem : f ∈ w.files) :
    (terminate_tor_process w s).state.torrc_path = none ∧
    f ∉ (terminate_tor_process w s).world.files := by
  unfold terminate_tor_process
  rw [killStep_not_started w s h]
  simp only [cleanupTorrc, hf]
  rw [if_pos hmem]
  refine ⟨rfl, ?_⟩
  intro hmem2
  have := List.of_mem_filter hmem2
  simp at this

/-! ## Claims -/

/-- C1, counterexample: with readiness succeeding and the probe's
`requests.get` raising, `download_video` propagates the exception (the
probe is outside the `try`), the fetcher is never invoked for that
candidate, and the run aborts. -/
theorem c1_probe_raise_aborts_cex :
    (attempt_loop [("se", ⟨true, .raises "boom", .ok⟩)] ⟨[], [], 0⟩ ⟨none, none, false⟩).result =
      .raised "boom" ∧
    fetchCount (attempt_loop [("se", ⟨true, .raises "boom", .ok⟩)] ⟨[], [], 0⟩
      ⟨none, none, false⟩).events = 0 := by
  decide

/-- C1 (amended): when readiness succeeds, a probe failure that does not
raise (a non-OK response) does not abort the attempt — the fetcher is
still invoked for that candidate; but a probe that raises propagates out
of the rotation loop uncaught, without invoking the fetcher. -/
theorem c1_probe_failure_nonfatal :
    (∀ (c : String) (e : CandidateEnv) (rest : List (String × CandidateEnv))
       (w : World) (s : TorState), e.ready = true → e.probe = ProbeOutcome.notOk →
       Event.fetch c ∈ (attempt_loop ((c, e) :: rest) w s).events) ∧
    (∀ (c : String) (e : CandidateEnv) (rest : List (String × CandidateEnv))
       (w : World) (s : TorState) (m : String), e.ready = true → e.probe = ProbeOutcome.raises m →
       (attempt_loop ((c, e) :: rest) w s).result = .raised m ∧
       Event.fetch c ∉ (attempt_loop ((c, e) :: rest) w s).events) := by
  constructor
  · intro c e rest w s hr hp
    have hnp : ∀ m, e.probe ≠ .raises m := by
      intro m h
      rw [hp] at h
      cases h
    rcases hf : e.fetch with _ | m
    · rw [attempt_loop_fetchOk c e rest w s hr hnp hf]
      simp
    · rw [attempt_loop_fetchRaises c e rest w s m hr hnp hf]
      simp
  · intro c e rest w s m hr hp
    rw [attempt_loop_probeRaises c e rest w s m hr hp]
    refine ⟨rfl, ?_⟩
    intro hmem
    rcases List.mem_append.mp hmem with h1 | h1
    · rcases start_events_shape c w s _ h1 with h2 | h2 <;> cases h2
    · simp at h1

/-- C1 witness: concrete non-OK probe, fetcher still invoked. -/
theorem c1_probe_failure_nonfatal_witness :
    Event.fetch "se" ∈ (attempt_loop [("se", ⟨true, .notOk, .ok⟩)] ⟨[], [], 0⟩
      ⟨none, none, false⟩).events :=
  c1_probe_failure_nonfatal.1 "se" ⟨true, .notOk, .ok⟩ [] ⟨[], [], 0⟩ ⟨none, none, false⟩ rfl rfl

/-- C2, counterexample: a run in which the only candidate fails and a run
in which the only candidate's fetch succeeds return the same value
(Python `None`); failure is not distinguishable via the return value. -/
theorem c2_result_indistinguishable_cex :
    Event.failAll ∈ (attempt_loop [("se", ⟨false, .ok, .ok⟩)] ⟨[], [], 0⟩
      ⟨none, none, false⟩).events ∧
    Event.success ∈ (attempt_loop [("se", ⟨true, .notOk, .ok⟩)] ⟨[], [], 0⟩
      ⟨none, none, false⟩).events ∧
    (attempt_loop [("se", ⟨false, .ok, .ok⟩)] ⟨[], [], 0⟩ ⟨none, none, false⟩).result =
      (attempt_loop [("se", ⟨true, .notOk, .ok⟩)] ⟨[], [], 0⟩ ⟨none, none, false⟩).result := by
  decide

/-- C2 (amended): when every candidate fails (readiness timeout, or a
non-raising probe and a raising fetcher), the loop returns normally —
the same `None` as a successful run — and final failure is signalled
only by the printed summary: the `failAll` line is emitted and the
success line is not. -/
theorem c2_exhaustion_returns_none (l : List (String × CandidateEnv)) (w : World) (s : TorState)
    (hall : ∀ p ∈ l, candidateFails p.2) :
    (attempt_loop l w s).result = .normal ∧
    Event.failAll ∈ (attempt_loop l w s).events ∧
    Event.success ∉ (attempt_loop l w s).events :=
  loop_allFail l w s hall

/-- C2 witness: concrete all-failing candidate list. -/
theorem c2_exhaustion_returns_none_witness :
    (attempt_loop [("se", ⟨false, .ok, .ok⟩)] ⟨[], [], 0⟩ ⟨none, none, false⟩).result = .normal ∧
    Event.failAll ∈ (attempt_loop [("se", ⟨false, .ok, .ok⟩)] ⟨[], [], 0⟩
      ⟨none, none, false⟩).events ∧
    Event.success ∉ (attempt_loop [("se", ⟨false, .ok, .ok⟩)] ⟨[], [], 0⟩
      ⟨none, none, false⟩).events :=
  c2_exhaustion_returns_none [("se", ⟨false, .ok, .ok⟩)] ⟨[], [], 0⟩ ⟨none, none, false⟩
    (by
      intro p hp
      simp only [List.mem_singleton] at hp
      subst hp
      exact Or.inl rfl)

/-- C3, counterexample: a transfer that delivers one byte at time 0 and
then an empty iteration at time 45 with `staleTimeout = 30` fails, but
the error carries the configured timeout (30), not the elapsed duration
since the last non-empty chunk (45). -/
theorem c3_stall_payload_cex :
    download_with_watchdog [(0, [1]), (45, [])] "video" 30 0 = .stalled "video" 30 ∧
    (30 : Nat) ≠ 45 - 0 := by
  decide

/-- C3 (amended): an iteration yielding no data when more than
`staleTimeout` seconds have elapsed since the last non-empty chunk fails
with the stall error immediately — regardless of the remaining stream
(`rest` is never consumed) — and the error carries the configured
timeout value. -/
theorem c3_stall_aborts (timeout : Nat) (label : String) (t lastData : Nat)
    (rest : List (Nat × List Nat)) (file : List Nat) (downloaded : Nat)
    (h : t - lastData > timeout) :
    dl_loop timeout label ((t, []) :: rest) lastData file downloaded =
      .stalled label timeout := by
  simp only [dl_loop]
  rw [if_pos trivial, if_pos h]

/-- C3 witness: concrete stalled transfer. -/
theorem c3_stall_aborts_witness :
    dl_loop 30 "video" [(45, [])] 0 [1] 1 = .stalled "video" 30 :=
  c3_stall_aborts 30 "video" 45 0 [] [1] 1 (by decide)

/-- C4: when every candidate fails readiness, a whole run (rotation loop
plus the `atexit` teardown) performs exactly one `Popen` per candidate in
list order and exactly one kill per candidate, never invokes the fetcher,
and reports final failure. -/
theorem c4_exhausts_all_candidates (l : List (String × CandidateEnv)) (w : World) (s : TorState)
    (hall : ∀ p ∈ l, p.2.ready = false) (hidle : s.tor_process = none) :
    startsOf (run_with_cleanup l w s).events = l.map Prod.fst ∧
    killCount (run_with_cleanup l w s).events = l.length ∧
    fetchCount (run_with_cleanup l w s).events = 0 ∧
    Event.failAll ∈ (run_with_cleanup l w s).events ∧
    (run_with_cleanup l w s).result = .normal :=
  cleanup_allNotReady_idle l w s hall hidle

/-- C4 witness: two never-ready candidates, two start/kill cycles in
order, no fetch, final failure. -/
theorem c4_exhausts_all_candidates_witness :
    startsOf (run_with_cleanup [("se", ⟨false, .ok, .ok⟩), ("ch", ⟨false, .ok, .ok⟩)]
      ⟨[], [], 0⟩ ⟨none, none, false⟩).events =
      ([("se", (⟨false, .ok, .ok⟩ : CandidateEnv)), ("ch", ⟨false, .ok, .ok⟩)].map Prod.fst) ∧
    killCount (run_with_cleanup [("se", ⟨false, .ok, .ok⟩), ("ch", ⟨false, .ok, .ok⟩)]
      ⟨[], [], 0⟩ ⟨none, none, false⟩).events = 2 ∧
    fetchCount (run_with_cleanup [("se", ⟨false, .ok, .ok⟩), ("ch", ⟨false, .ok, .ok⟩)]
      ⟨[], [], 0⟩ ⟨none, none, false⟩).events = 0 ∧
    Event.failAll ∈ (run_with_cleanup [("se", ⟨false, .ok, .ok⟩), ("ch", ⟨false, .ok, .ok⟩)]
      ⟨[], [], 0⟩ ⟨none, none, false⟩).events ∧
    (run_with_cleanup [("se", ⟨false, .ok, .ok⟩), ("ch", ⟨false, .ok, .ok⟩)]
      ⟨[], [], 0⟩ ⟨none, none, false⟩).result = .normal :=
  c4_exhausts_all_candidates [("se", ⟨false, .ok, .ok⟩), ("ch", ⟨false, .ok, .ok⟩)]
    ⟨[], [], 0⟩ ⟨none, none, false⟩ (by decide) rfl

/-- C5: starting a second candidate directly after a successful first
start (no intervening terminate) leaves exactly one live proxy process,
and the first candidate's configuration artifact is gone from disk. -/
theorem c5_start_start_exclusive (c1 c2 : String) (w : World) (s : TorState)
    (halive : w.alive = []) (hidle : s.tor_process = none) :
    (start_tor_process c2 (start_tor_process c1 w s).world
      (start_tor_process c1 w s).state).world.alive.length = 1 ∧
    (∀ f, (start_tor_process c1 w s).state.torrc_path = some f →
      f ∉ (start_tor_process c2 (start_tor_process c1 w s).world
        (start_tor_process c1 w s).state).world.files) := by
  obtain ⟨ha1, hn1⟩ := terminate_idle_world w s hidle
  have h1 : start_tor_process c1 w s =
      ⟨⟨[(terminate_tor_process w s).world.nextId + 1],
        ((terminate_tor_process w s).world.nextId) :: (terminate_tor_process w s).world.files,
        (terminate_tor_process w s).world.nextId + 2⟩,
       ⟨some ((terminate_tor_process w s).world.nextId + 1),
        some ((terminate_tor_process w s).world.nextId), true⟩,
       (terminate_tor_process w s).events ++ [Event.start c1]⟩ := by
    rw [start_tor_process_eq, ha1, halive]
  set n := (terminate_tor_process w s).world.nextId with hn
  set F := (terminate_tor_process w s).world.files with hF
  rw [h1, start_tor_process_eq, terminate_single (n + 1) n F (n + 2)]
  dsimp only
  constructor
  · rfl
  · intro f hf
    injection hf with hf
    intro hmem
    rcases List.mem_cons.mp hmem with h2 | h2
    · omega
    · have h3 := List.of_mem_filter h2
      rw [← hf] at h3
      simp at h3

/-- C5 witness: concrete double start from a clean state. -/
theorem c5_start_start_exclusive_witness :
    (start_tor_process "ch" (start_tor_process "se" ⟨[], [], 0⟩ ⟨none, none, false⟩).world
      (start_tor_process "se" ⟨[], [], 0⟩ ⟨none, none, false⟩).state).world.alive.length = 1 ∧
    0 ∉ (start_tor_process "ch" (start_tor_process "se" ⟨[], [], 0⟩ ⟨none, none, false⟩).world
      (start_tor_process "se" ⟨[], [], 0⟩ ⟨none, none, false⟩).state).world.files :=
  ⟨(c5_start_start_exclusive "se" "ch" ⟨[], [], 0⟩ ⟨none, none, false⟩ rfl rfl).1,
   (c5_start_start_exclusive "se" "ch" ⟨[], [], 0⟩ ⟨none, none, false⟩ rfl rfl).2 0 rfl⟩

/-- C6, counterexample: with `startedByUs = false` and a stale reference
to a configuration artifact that no longer exists on disk, `terminate`
sends no signal (events empty) but does NOT clear the stale reference:
`torrc_path` is still set afterwards. -/
theorem c6_stale_ref_not_cleared_cex :
    (terminate_tor_process ⟨[7], [], 5⟩ ⟨some 7, some 3, false⟩).state.torrc_path = some 3 ∧
    (terminate_tor_process ⟨[7], [], 5⟩ ⟨some 7, some 3, false⟩).events = [] := by
  decide

/-- C6 (amended): in every state with `startedByUs = false`, neither
`terminate` nor the pre-termination inside `start` sends any signal, and
every pre-existing live process survives `terminate`; `terminate` deletes
the referenced configuration artifact and clears the reference when that
artifact still exists on disk (when the file is already gone the stale
reference value is left in place, per the counterexample). -/
theorem c6_never_kills_foreign (c : String) (w : World) (s : TorState)
    (h : s.tor_started_by_us = false) :
    (terminate_tor_process w s).events = [] ∧
    (start_tor_process c w s).events = [Event.start c] ∧
    (∀ p ∈ w.alive, p ∈ (terminate_tor_process w s).world.alive) ∧
    (∀ f, s.torrc_path = some f → f ∈ w.files →
      (terminate_tor_process w s).state.torrc_path = none ∧
      f ∉ (terminate_tor_process w s).world.files) := by
  refine ⟨?_, start_events_not_started c w s h, ?_, ?_⟩
  · rw [terminate_events, killStep_not_started w s h]
  · exact fun p hp => terminate_not_started_world w s h p hp
  · exact fun f hf hmem => terminate_not_started_cleanup w s h f hf hmem

/-- C6 witness: a foreign process on the port survives, and an existing
artifact is cleaned. -/
theorem c6_never_kills_foreign_witness :
    (terminate_tor_process ⟨[7], [3], 5⟩ ⟨some 7, some 3, false⟩).events = [] ∧
    7 ∈ (terminate_tor_process ⟨[7], [3], 5⟩ ⟨some 7, some 3, false⟩).world.alive ∧
    (terminate_tor_process ⟨[7], [3], 5⟩ ⟨some 7, some 3, false⟩).state.torrc_path = none :=
  ⟨(c6_never_kills_foreign "se" ⟨[7], [3], 5⟩ ⟨some 7, some 3, false⟩ rfl).1,
   (c6_never_kills_foreign "se" ⟨[7], [3], 5⟩ ⟨some 7, some 3, false⟩ rfl).2.2.1 7 (by decide),
   ((c6_never_kills_foreign "se" ⟨[7], [3], 5⟩ ⟨some 7, some 3, false⟩ rfl).2.2.2 3 rfl
     (by decide)).1⟩

/-- C7: `terminate` is idempotent — a second call with no intervening
`start` changes neither the world nor the globals and emits no event (in
particular no second kill attempt, and no error). -/
theorem c7_terminate_idempotent (w : World) (s : TorState) :
    terminate_tor_process (terminate_tor_process w s).world (terminate_tor_process w s).state =
      ⟨(terminate_tor_process w s).world, (terminate_tor_process w s).state, []⟩ :=
  terminate_terminate w s

/-- C8: the materializer's selection is a member of the version list
whose dotted-integer key is maximal, and on `["9.9", "10.0", "9.10"]`
it picks `"10.0"`, not the lexicographically greatest `"9.9"`. -/
theorem c8_version_selection :
    (∀ versions : List String, versions ≠ [] →
      latest_version versions ∈ versions ∧
      ∀ v ∈ versions,
        natListLE (parseVersion v) (parseVersion (latest_version versions)) = true) ∧
    latest_version ["9.9", "10.0", "9.10"] = "10.0" := by
  refine ⟨?_, by decide⟩
  intro versions hne
  obtain ⟨h1, h2⟩ := latest_version_max versions hne
  exact ⟨h1, fun v hv => h2 v hv⟩

/-- C8 witness: the concrete list from the spec. -/
theorem c8_version_selection_witness :
    latest_version ["9.9", "10.0", "9.10"] ∈ ["9.9", "10.0", "9.10"] ∧
    natListLE (parseVersion "9.9") (parseVersion (latest_version ["9.9", "10.0", "9.10"])) =
      true :=
  ⟨(c8_version_selection.1 ["9.9", "10.0", "9.10"] (by decide)).1,
   (c8_version_selection.1 ["9.9", "10.0", "9.10"] (by decide)).2 "9.9" (by decide)⟩

/-- C9: a successful transfer writes exactly the in-order concatenation
of the non-empty chunks, and the byte counter equals the file length. -/
theorem c9_success_concatenation (steps : List (Nat × List Nat)) (label : String)
    (timeout startT : Nat) (f : List Nat) (d : Nat)
    (h : download_with_watchdog steps label timeout startT = .ok f d) :
    f = ((steps.map Prod.snd).filter (fun c => c ≠ [])).flatten ∧ d = f.length := by
  obtain ⟨h1, h2⟩ := dl_loop_ok timeout label steps startT [] 0 f d h
  rw [flatten_filter_ne_nil]
  simp only [List.nil_append] at h1
  constructor
  · exact h1
  · rw [h1]
    omega

/-- C9 witness: concrete successful transfer with an intervening empty
iteration. -/
theorem c9_success_concatenation_witness :
    ([5, 6, 7] : List Nat) =
      (([(1, [5]), (2, []), (3, [6, 7])].map Prod.snd).filter (fun c => c ≠ [])).flatten ∧
    (3 : Nat) = ([5, 6, 7] : List Nat).length :=
  c9_success_concatenation [(1, [5]), (2, []), (3, [6, 7])] "x" 30 0 [5, 6, 7] 3 (by decide)

/-- C10: the sanitizer's output contains no forbidden character and no
space, and the sanitizer is idempotent. -/
theorem c10_sanitize_safe_idempotent :
    (∀ (s : String) (c : Char), c ∈ (sanitize_filename s).toList →
      forbiddenChar c = false ∧ c ≠ ' ') ∧
    (∀ s : String, sanitize_filename (sanitize_filename s) = sanitize_filename s) :=
  ⟨fun s c hc => mem_sanitize s c hc, sanitize_idem⟩

/-- C10 witness: a concrete title with punctuation. -/
theorem c10_sanitize_safe_idempotent_witness :
    (forbiddenChar 'M' = false ∧ 'M' ≠ ' ') ∧
    sanitize_filename (sanitize_filename "My Video: \"Title\"?.mp4") =
      sanitize_filename "My Video: \"Title\"?.mp4" :=
  ⟨c10_sanitize_safe_idempotent.1 "My Video" 'M' (by decide),
   c10_sanitize_safe_idempotent.2 "My Video: \"Title\"?.mp4"⟩

end RegionFree
